import Mathlib

/-!
Verification of the adaptive hearing-asymmetry screening core:
a shallow embedding of the staircase controller, threshold computation,
asymmetry analyzer and stimulus synthesizer, with theorems about the
claimed properties.
-/

namespace HearingScreening

/-- Which ear a stimulus is routed to. -/
inductive Ear where
  | left
  | right
  deriving DecidableEq, Repr

/-- Direction of the last staircase level movement. -/
inductive Direction where
  | up
  | down
  deriving DecidableEq, Repr

/-- One recorded trial response, as appended to `self.responses`. -/
structure Response where
  level : Int
  heard : Bool
  catch_trial : Bool
  correct : Bool
  deriving DecidableEq, Repr

/-- State of one `AdaptiveThresholdTest` instance (one staircase run). -/
structure TestState where
  current_level : Int
  step_size : Int
  reversals : List Int
  responses : List Response
  trial_count : Nat
  consecutive_heard : Nat
  last_direction : Option Direction
  is_catch_trial : Bool
  waiting_for_response : Bool
  deriving DecidableEq, Repr

/-- `self.app.step_size_large = 20`. -/
def step_size_large : Int := 20

/-- `self.app.step_size_small = 10`. -/
def step_size_small : Int := 10

/-- `self.max_trials = 10`. -/
def max_trials : Nat := 10

/-- `self.app.reversals_target = 2`. -/
def reversals_target : Nat := 2

/-- `max(-60, min(0, new_level))` from `update_level`. -/
def clampLevel (x : Int) : Int := max (-60) (min 0 x)

/-- Initial controller state from `AdaptiveThresholdTest.__init__`. -/
def initState : TestState :=
  { current_level := -10
    step_size := step_size_large
    reversals := []
    responses := []
    trial_count := 0
    consecutive_heard := 0
    last_direction := none
    is_catch_trial := false
    waiting_for_response := false }

/-- `AdaptiveThresholdTest.update_level` from `src/app.py` (and, up to the
`new_level` initialisation style, `src/app/app.py`): the 2-down/1-up rule
with reversal recording, step-size shrink at the first reversal, and
clamping of the resulting level to `[-60, 0]`. -/
def update_level (s : TestState) (heard : Bool) : TestState :=
  if heard then
    let ch := s.consecutive_heard + 1
    if 2 ≤ ch then
      let new_level := s.current_level - s.step_size
      let s1 :=
        if s.last_direction = some Direction.up then
          { s with reversals := s.reversals ++ [s.current_level]
                   step_size := step_size_small }
        else s
      { s1 with consecutive_heard := 0
                last_direction := some Direction.down
                current_level := clampLevel new_level }
    else
      { s with consecutive_heard := ch }
  else
    let new_level := s.current_level + s.step_size
    let s1 :=
      if s.last_direction = some Direction.down then
        { s with reversals := s.reversals ++ [s.current_level]
                 step_size := step_size_small }
      else s
    { s1 with consecutive_heard := 0
              last_direction := some Direction.up
              current_level := clampLevel new_level }

/-- The state after `on_response` has cleared `waiting_for_response` and
appended the trial record to `self.responses` (with `correct` derived as
`heard == correct_response`). -/
def record_response (s : TestState) (heard : Bool) : TestState :=
  { s with waiting_for_response := false
           responses := s.responses ++
             [{ level := s.current_level
                heard := heard
                catch_trial := s.is_catch_trial
                correct := heard == !s.is_catch_trial }] }

/-- `AdaptiveThresholdTest.on_response`: ignores the event unless
`waiting_for_response`, records the trial, and (for non-catch trials only)
applies the level-update rule. -/
def on_response (s : TestState) (heard : Bool) : TestState :=
  if !s.waiting_for_response then s
  else if s.is_catch_trial then record_response s heard
  else update_level (record_response s heard) heard

/-- The termination test at the top of `AdaptiveThresholdTest.run_trial`. -/
def is_done (s : TestState) : Bool :=
  max_trials ≤ s.trial_count || reversals_target ≤ s.reversals.length

/-- One full trial once `run_trial` has decided to proceed: the trial
counter is incremented and the catch flag drawn in `run_trial`,
`present_stimulus` sets `waiting_for_response`, and the (unique) response
is processed by `on_response`. -/
def run_trial (s : TestState) (isCatch heard : Bool) : TestState :=
  on_response
    { s with trial_count := s.trial_count + 1
             is_catch_trial := isCatch
             waiting_for_response := true } heard

/-- A whole controller run over a list of per-trial inputs
(catch-trial draw, subject response), stopping as soon as `run_trial`'s
termination test fires. -/
def run : TestState → List (Bool × Bool) → TestState
  | s, [] => s
  | s, (c, h) :: rest => if is_done s then s else run (run_trial s c h) rest

/-- The trial history of a run: every controller state it passes through. -/
def runTrace : TestState → List (Bool × Bool) → List TestState
  | s, [] => [s]
  | s, (c, h) :: rest =>
      if is_done s then [s] else s :: runTrace (run_trial s c h) rest

/-- Exact rational mean, modelling `np.mean` / `sum(l) / len(l)` on the
recorded integer levels. -/
def meanQ (l : List Int) : ℚ := (l.map (fun x : Int => (x : ℚ))).sum / (l.length : ℚ)

/-- The response-flip levels collected by `complete_test`'s fallback loop:
`valid_responses[i]['level']` whenever `heard` differs from the previous
valid response. -/
def flip_levels : List Response → List Int
  | a :: b :: rest =>
      (if b.heard ≠ a.heard then [b.level] else []) ++ flip_levels (b :: rest)
  | _ => []

/-- `valid_responses = [r for r in self.responses if not r['catch_trial']]`. -/
def valid_responses (s : TestState) : List Response :=
  s.responses.filter (fun r => !r.catch_trial)

/-- `AdaptiveThresholdTest.complete_test` from `src/app.py`: mean of the
last two reversals if at least two exist, otherwise mean of the
response-flip levels, otherwise 0. -/
def complete_test (s : TestState) : ℚ :=
  if 2 ≤ s.reversals.length then
    meanQ (s.reversals.drop (s.reversals.length - 2))
  else if (flip_levels (valid_responses s)).isEmpty then 0
  else meanQ (flip_levels (valid_responses s))

/-- `AdaptiveThresholdTest.complete_test` from `src/app/app.py`: mean of
the last two reversals, else the single last reversal, else the mean of the
response-flip levels of the valid responses (falling back to the current
level), else 0 when no valid responses exist. -/
def complete_test_app (s : TestState) : ℚ :=
  if 2 ≤ s.reversals.length then
    meanQ (s.reversals.drop (s.reversals.length - 2))
  else if s.reversals.length ≠ 0 then
    ((s.reversals.getLastD 0 : Int) : ℚ)
  else if (valid_responses s).isEmpty then 0
  else if (flip_levels (valid_responses s)).isEmpty then (s.current_level : ℚ)
  else meanQ (flip_levels (valid_responses s))

/-- The level range `[-60, 0]` enforced by `update_level`'s clamp. -/
def levelRange (x : Int) : Prop := -60 ≤ x ∧ x ≤ 0

/-- All levels a controller has recorded anywhere lie in `[-60, 0]`. -/
def stateRange (s : TestState) : Prop :=
  levelRange s.current_level ∧ (∀ x ∈ s.reversals, levelRange x) ∧
    (∀ r ∈ s.responses, levelRange r.level)

/-! ## Asymmetry analyzer (`HearingScreeningApp.analyze_asymmetry`, src/app.py) -/

/-- Analyzer accumulator: the four result components built up by
`analyze_asymmetry`'s two loops. -/
structure AnalysisState where
  asymmetry_detected : Bool
  max_difference : ℚ
  problematic_frequencies : List Nat
  differences : List (Nat × ℚ)
  deriving DecidableEq, Repr

/-- Dictionary lookup on a (frequency, threshold) association list,
modelling `freq in dict` / `dict[freq]`. -/
def lookupThreshold : List (Nat × ℚ) → Nat → Option ℚ
  | [], _ => none
  | (k, v) :: rest, f => if k = f then some v else lookupThreshold rest f

/-- Accumulator at the start of `analyze_asymmetry`. -/
def analyzeInit : AnalysisState :=
  { asymmetry_detected := false
    max_difference := 0
    problematic_frequencies := []
    differences := [] }

/-- Body of the per-frequency loop: when the frequency has a threshold in
both ears, record the absolute difference, track the maximum, and flag
asymmetry plus the frequency if the difference is at least 20 dB. -/
def diffStep (left right : List (Nat × ℚ)) (st : AnalysisState) (freq : Nat) :
    AnalysisState :=
  match lookupThreshold left freq, lookupThreshold right freq with
  | some lv, some rv =>
      let diff := |lv - rv|
      { asymmetry_detected := st.asymmetry_detected || decide (20 ≤ diff)
        max_difference := max st.max_difference diff
        problematic_frequencies :=
          if 20 ≤ diff then st.problematic_frequencies ++ [freq]
          else st.problematic_frequencies
        differences := st.differences ++ [(freq, diff)] }
  | _, _ => st

/-- The adjacent pairs `(freq_list[i], freq_list[i+1])` visited by the
second loop of `analyze_asymmetry`. -/
def adjacentPairs : List Nat → List (Nat × Nat)
  | a :: b :: rest => (a, b) :: adjacentPairs (b :: rest)
  | _ => []

/-- `if freq not in problematic_frequencies: problematic_frequencies.append(freq)`. -/
def appendIfNew (l : List Nat) (f : Nat) : List Nat :=
  if f ∈ l then l else l ++ [f]

/-- Body of the adjacent-frequency loop: when both frequencies of the pair
have recorded differences of at least 15 dB, flag asymmetry and mark both
frequencies problematic. -/
def adjacentStep (st : AnalysisState) (p : Nat × Nat) : AnalysisState :=
  match lookupThreshold st.differences p.1, lookupThreshold st.differences p.2 with
  | some d1, some d2 =>
      if 15 ≤ d1 ∧ 15 ≤ d2 then
        { st with asymmetry_detected := true
                  problematic_frequencies :=
                    appendIfNew (appendIfNew st.problematic_frequencies p.1) p.2 }
      else st
  | _, _ => st

/-- `HearingScreeningApp.analyze_asymmetry`: the per-frequency pass over
`test_frequencies` followed by the adjacent-pair pass over the sorted
frequency list. -/
def analyze_asymmetry (left right : List (Nat × ℚ)) (test_frequencies : List Nat) :
    AnalysisState :=
  let st1 := test_frequencies.foldl (diffStep left right) analyzeInit
  (adjacentPairs (test_frequencies.insertionSort (· ≤ ·))).foldl adjacentStep st1

/-! ## Stimulus synthesizer (`HearingScreeningApp.play_test_tone`, src/app.py) -/

/-- `self.sample_rate = 44100`. -/
def sample_rate : Nat := 44100

/-- `int(self.sample_rate * duration)` for a nonnegative rational duration
`dNum / dDen` seconds: truncating a nonnegative value is the floor, and
`⌊sr * dNum / dDen⌋` is exactly natural-number division. -/
def num_samples (sr dNum dDen : Nat) : Nat := sr * dNum / dDen

/-- `fade_samples = int(0.05 * self.sample_rate)`: five percent of one
second's worth of samples; `⌊sr / 20⌋` as natural-number division. -/
def fade_samples (sr : Nat) : Nat := sr / 20

/-- Modelled from the spec: the fade length that the specification's words
"linear fade-in over the first 5% of duration" call for, namely five
percent of the stimulus' total sample count (truncated like `int`); this
definition follows the spec's words and is compared against the source's
`fade_samples`. -/
def spec_fade_samples (sr dNum dDen : Nat) : Nat := num_samples sr dNum dDen / 20

/-- The fade envelope array built in `play_test_tone`: ones, overwritten by
`linspace(0, 1, fade_samples)` on the first `fade_samples` entries and by
`linspace(1, 0, fade_samples)` on the last `fade_samples` entries (the
fade-out assignment being the later, overriding one). -/
def envelope (n fade : Nat) (i : Nat) : ℚ :=
  if n - fade ≤ i then ((n - 1 - i : Nat) : ℚ) / ((fade - 1 : Nat) : ℚ)
  else if i < fade then (i : ℚ) / ((fade - 1 : Nat) : ℚ)
  else 1

/-- `amplitude = self.reference_level * (10 ** (level_db / 20))`. -/
noncomputable def amplitude (ref level_db : ℝ) : ℝ :=
  ref * (10 : ℝ) ^ (level_db / 20)

/-- Sample `i` of the raw sine `amplitude * np.sin(2 * np.pi * frequency * t)`
with `t = np.linspace(0, duration, n)`, so `t i = duration * i / (n - 1)`. -/
noncomputable def tone_sample (ref level_db freq d : ℝ) (n i : Nat) : ℝ :=
  amplitude ref level_db * Real.sin (2 * Real.pi * freq * (d * i / ((n : ℝ) - 1)))

/-- The continuous-time stimulus `amplitude * sin(2π·f·t)` underlying the
sampled buffer. -/
noncomputable def cont_tone (ref level_db freq t : ℝ) : ℝ :=
  amplitude ref level_db * Real.sin (2 * Real.pi * freq * t)

/-- `tone *= envelope`: the fade envelope applied multiplicatively to the
raw sine. -/
noncomputable def enveloped_sample (ref level_db freq d : ℝ) (n fade i : Nat) : ℝ :=
  tone_sample ref level_db freq d n i * ((envelope n fade i : ℚ) : ℝ)

/-- `np.column_stack` channel routing: the enveloped signal in the chosen
ear's channel, zeros in the other. -/
noncomputable def stereo_sample (ref level_db freq d : ℝ) (n fade i : Nat) :
    Ear → ℝ × ℝ
  | Ear.left => (enveloped_sample ref level_db freq d n fade i, 0)
  | Ear.right => (0, enveloped_sample ref level_db freq d n fade i)

/-! ## Staircase helper lemmas -/

theorem clampLevel_mem (x : Int) : -60 ≤ clampLevel x ∧ clampLevel x ≤ 0 :=
  ⟨le_max_left _ _, max_le (by norm_num) (min_le_left 0 x)⟩

theorem update_level_trial_count (s : TestState) (b : Bool) :
    (update_level s b).trial_count = s.trial_count := by
  cases b <;> simp only [update_level] <;> split_ifs <;> rfl

theorem record_response_trial_count (s : TestState) (b : Bool) :
    (record_response s b).trial_count = s.trial_count := rfl

@[simp]
theorem record_response_current_level (s : TestState) (b : Bool) :
    (record_response s b).current_level = s.current_level := rfl

@[simp]
theorem record_response_step_size (s : TestState) (b : Bool) :
    (record_response s b).step_size = s.step_size := rfl

@[simp]
theorem record_response_reversals (s : TestState) (b : Bool) :
    (record_response s b).reversals = s.reversals := rfl

@[simp]
theorem record_response_consecutive_heard (s : TestState) (b : Bool) :
    (record_response s b).consecutive_heard = s.consecutive_heard := rfl

@[simp]
theorem record_response_last_direction (s : TestState) (b : Bool) :
    (record_response s b).last_direction = s.last_direction := rfl

@[simp]
theorem record_response_is_catch_trial (s : TestState) (b : Bool) :
    (record_response s b).is_catch_trial = s.is_catch_trial := rfl

theorem on_response_trial_count (s : TestState) (b : Bool) :
    (on_response s b).trial_count = s.trial_count := by
  unfold on_response
  split
  · rfl
  · split
    · rfl
    · rw [update_level_trial_count, record_response_trial_count]

theorem run_trial_trial_count (s : TestState) (c h : Bool) :
    (run_trial s c h).trial_count = s.trial_count + 1 := by
  unfold run_trial
  rw [on_response_trial_count]

theorem update_level_stateRange (s : TestState) (b : Bool) (hs : stateRange s) :
    stateRange (update_level s b) := by
  obtain ⟨h1, h2, h3⟩ := hs
  unfold update_level
  cases b
  · simp only [Bool.false_eq_true, if_false]
    split
    · refine ⟨clampLevel_mem _, ?_, h3⟩
      intro x hx
      rcases List.mem_append.mp hx with hx | hx
      · exact h2 x hx
      · rw [List.mem_singleton.mp hx]; exact h1
    · exact ⟨clampLevel_mem _, h2, h3⟩
  · simp only [if_true]
    split
    · split
      · refine ⟨clampLevel_mem _, ?_, h3⟩
        intro x hx
        rcases List.mem_append.mp hx with hx | hx
        · exact h2 x hx
        · rw [List.mem_singleton.mp hx]; exact h1
      · exact ⟨clampLevel_mem _, h2, h3⟩
    · exact ⟨h1, h2, h3⟩

theorem record_response_stateRange (s : TestState) (b : Bool) (hs : stateRange s) :
    stateRange (record_response s b) := by
  obtain ⟨h1, h2, h3⟩ := hs
  refine ⟨h1, h2, ?_⟩
  intro r hr
  rcases List.mem_append.mp hr with hr | hr
  · exact h3 r hr
  · rw [List.mem_singleton.mp hr]; exact h1

theorem on_response_stateRange (s : TestState) (b : Bool) (hs : stateRange s) :
    stateRange (on_response s b) := by
  unfold on_response
  split
  · exact hs
  · split
    · exact record_response_stateRange s b hs
    · exact update_level_stateRange _ b (record_response_stateRange s b hs)

theorem run_trial_stateRange (s : TestState) (c h : Bool) (hs : stateRange s) :
    stateRange (run_trial s c h) := by
  unfold run_trial
  apply on_response_stateRange
  exact hs

theorem initState_stateRange : stateRange initState := by
  refine ⟨⟨by norm_num [initState], by norm_num [initState]⟩, ?_, ?_⟩
  · intro x hx; simp [initState] at hx
  · intro r hr; simp [initState] at hr

theorem runTrace_stateRange (l : List (Bool × Bool)) (s t : TestState)
    (hs : stateRange s) (ht : t ∈ runTrace s l) : stateRange t := by
  induction l generalizing s with
  | nil =>
      rw [runTrace, List.mem_singleton] at ht
      rw [ht]; exact hs
  | cons p rest ih =>
      obtain ⟨c, h⟩ := p
      rw [runTrace] at ht
      split at ht
      · rw [List.mem_singleton] at ht
        rw [ht]; exact hs
      · rcases List.mem_cons.mp ht with ht | ht
        · rw [ht]; exact hs
        · exact ih _ (run_trial_stateRange s c h hs) ht

theorem run_stateRange (l : List (Bool × Bool)) (s : TestState)
    (hs : stateRange s) : stateRange (run s l) := by
  induction l generalizing s with
  | nil => exact hs
  | cons p rest ih =>
      obtain ⟨c, h⟩ := p
      rw [run]
      split
      · exact hs
      · exact ih _ (run_trial_stateRange s c h hs)

/-! ## Claims C1, C6, C7 about single trials -/

/-- Claim C1: on every non-catch trial the controller follows the
2-down/1-up rule: a "heard" response increments the consecutive-heard
counter and lowers `current_level` by `step_size` (through the `[-60, 0]`
clamp) exactly when that counter reaches two, resetting it; a "not heard"
response raises `current_level` by `step_size` (through the clamp)
immediately and resets the counter. -/
theorem c1_two_down_one_up (s : TestState) :
    ((run_trial s false true).consecutive_heard =
      if 2 ≤ s.consecutive_heard + 1 then 0 else s.consecutive_heard + 1)
    ∧ ((run_trial s false true).current_level =
      if 2 ≤ s.consecutive_heard + 1 then clampLevel (s.current_level - s.step_size)
      else s.current_level)
    ∧ ((run_trial s false false).current_level =
      clampLevel (s.current_level + s.step_size))
    ∧ ((run_trial s false false).consecutive_heard = 0) := by
  unfold run_trial on_response update_level
  refine ⟨?_, ?_, ?_, ?_⟩ <;> simp <;> split <;> simp_all

/-- Claim C6: a catch trial leaves the staircase state untouched — the
level, step size, last direction, reversal list and consecutive-heard
counter are all unchanged, whatever the response was. -/
theorem c6_catch_trial_frame (s : TestState) (h : Bool) :
    (run_trial s true h).current_level = s.current_level
    ∧ (run_trial s true h).step_size = s.step_size
    ∧ (run_trial s true h).last_direction = s.last_direction
    ∧ (run_trial s true h).reversals = s.reversals
    ∧ (run_trial s true h).consecutive_heard = s.consecutive_heard := by
  unfold run_trial on_response
  simp

/-- Claim C7: a `respond(heard)` event delivered while the controller is
not waiting for a response is ignored completely: the state is returned
unchanged, so nothing is recorded, no level update happens and no new
trial is produced. -/
theorem c7_duplicate_response_ignored (s : TestState) (h : Bool)
    (hw : s.waiting_for_response = false) : on_response s h = s := by
  unfold on_response
  rw [hw]
  simp

/-- Witness for C7 at the freshly initialised (not waiting) state. -/
theorem c7_duplicate_response_ignored_witness :
    initState.waiting_for_response = false ∧ on_response initState true = initState :=
  ⟨rfl, c7_duplicate_response_ignored initState true rfl⟩

/-! ## Claim C4: the level invariant -/

/-- Claim C4: at every point in the trial history of any controller run
started from the initial state, `current_level` stays within `[-60, 0]`:
the initial level `-10` lies in the range and every level update clamps
its result to it. -/
theorem c4_level_in_range (l : List (Bool × Bool)) (s : TestState)
    (hs : s ∈ runTrace initState l) :
    -60 ≤ s.current_level ∧ s.current_level ≤ 0 :=
  (runTrace_stateRange l initState s initState_stateRange hs).1

/-- Witness for C4: the first state of the empty run. -/
theorem c4_level_in_range_witness :
    initState ∈ runTrace initState []
    ∧ (-60 ≤ initState.current_level ∧ initState.current_level ≤ 0) :=
  ⟨by decide, c4_level_in_range [] initState (by decide)⟩

/-! ## Claim C5: termination -/

theorem run_trial_count_growth (l : List (Bool × Bool)) (s : TestState) :
    is_done (run s l) = true ∨ (run s l).trial_count = s.trial_count + l.length := by
  induction l generalizing s with
  | nil => right; rfl
  | cons p rest ih =>
      obtain ⟨c, h⟩ := p
      rw [run]
      split
      · left; assumption
      · rcases ih (run_trial s c h) with hd | he
        · left; exact hd
        · right
          rw [he, run_trial_trial_count, List.length_cons]
          omega

/-- Claim C5: a controller run never starts a trial once the trial cap
(10) or the reversal target (2) is reached — a finished state absorbs all
further inputs, an unfinished state consumes exactly one trial — and every
run terminates: after at most 10 trials from the initial state the
termination test holds. -/
theorem c5_termination (s : TestState) (c h : Bool) (l rest : List (Bool × Bool)) :
    (is_done s = true → run s l = s)
    ∧ (is_done s = false → run s ((c, h) :: rest) = run (run_trial s c h) rest)
    ∧ (10 ≤ l.length → is_done (run initState l) = true) := by
  refine ⟨?_, ?_, ?_⟩
  · intro hd
    cases l with
    | nil => rfl
    | cons p rest' => obtain ⟨c', h'⟩ := p; rw [run, if_pos hd]
  · intro hd
    rw [run, if_neg (by rw [hd]; exact Bool.false_ne_true)]
  · intro hlen
    rcases run_trial_count_growth l initState with hd | he
    · exact hd
    · have : 10 ≤ (run initState l).trial_count := by
        rw [he]; simpa [initState] using hlen
      simp only [is_done, max_trials, Bool.or_eq_true, decide_eq_true_eq]
      left
      exact this

/-- Witness for C5: a state at the trial cap absorbs inputs, the initial
state consumes a trial, and ten trials finish a run. -/
theorem c5_termination_witness :
    (is_done { initState with trial_count := 10 } = true
      ∧ run { initState with trial_count := 10 } [(false, true)] =
          { initState with trial_count := 10 })
    ∧ (is_done initState = false
      ∧ run initState [(false, true)] = run (run_trial initState false true) [])
    ∧ (10 ≤ (List.replicate 10 (false, true)).length
      ∧ is_done (run initState (List.replicate 10 (false, true))) = true) :=
  ⟨⟨by decide,
    (c5_termination { initState with trial_count := 10 } false true [(false, true)] []).1
      (by decide)⟩,
   ⟨by decide,
    (c5_termination initState false true [(false, true)] []).2.1 (by decide)⟩,
   ⟨by decide,
    (c5_termination initState false true (List.replicate 10 (false, true)) []).2.2
      (by decide)⟩⟩

/-! ## Claim C2: threshold = mean of the last two reversals -/

theorem meanQ_pair (a b : Int) : meanQ [a, b] = ((a : ℚ) + b) / 2 := by
  simp [meanQ]

theorem drop_last_two (pre : List Int) (a b : Int) :
    (pre ++ [a, b]).drop ((pre ++ [a, b]).length - 2) = [a, b] := by
  have hlen : (pre ++ [a, b]).length = pre.length + 2 := by
    simp
  rw [hlen, Nat.add_sub_cancel]
  rw [List.drop_left]

/-- Claim C2: whenever a run completes with at least two recorded
reversals — the reversal list ends in two levels `a`, `b` — the reported
threshold is exactly their arithmetic mean, in each of the repository's
`complete_test` variants. -/
theorem c2_threshold_mean_last_two (s : TestState) (pre : List Int) (a b : Int)
    (h : s.reversals = pre ++ [a, b]) :
    complete_test s = ((a : ℚ) + b) / 2
    ∧ complete_test_app s = ((a : ℚ) + b) / 2 := by
  have hlen : 2 ≤ s.reversals.length := by
    rw [h]; simp
  have hdrop : s.reversals.drop (s.reversals.length - 2) = [a, b] := by
    rw [h]; exact drop_last_two pre a b
  constructor
  · rw [complete_test]
    simp only [if_pos hlen, hdrop, meanQ_pair]
  · rw [complete_test_app]
    simp only [if_pos hlen, hdrop, meanQ_pair]

/-- Witness for C2 at a state holding exactly the reversals `[-30, -10]`. -/
theorem c2_threshold_mean_last_two_witness :
    ({ initState with reversals := [-30, -10] } : TestState).reversals =
      [] ++ [-30, -10]
    ∧ complete_test { initState with reversals := [-30, -10] } =
        (((-30 : Int) : ℚ) + ((-10 : Int) : ℚ)) / 2
    ∧ complete_test_app { initState with reversals := [-30, -10] } =
        (((-30 : Int) : ℚ) + ((-10 : Int) : ℚ)) / 2 :=
  ⟨rfl,
   (c2_threshold_mean_last_two { initState with reversals := [-30, -10] }
      [] (-30) (-10) rfl).1,
   (c2_threshold_mean_last_two { initState with reversals := [-30, -10] }
      [] (-30) (-10) rfl).2⟩

/-! ## Claim C10: every reported threshold lies in [-60, 0] -/

theorem sumQ_bounds (l : List Int) (hb : ∀ x ∈ l, -60 ≤ x ∧ x ≤ 0) :
    (-60 : ℚ) * l.length ≤ (l.map (fun x : Int => (x : ℚ))).sum
    ∧ (l.map (fun x : Int => (x : ℚ))).sum ≤ 0 := by
  induction l with
  | nil => simp
  | cons a t ih =>
      have ha := hb a (List.mem_cons_self a t)
      have ha1 : (-60 : ℚ) ≤ (a : ℚ) := by exact_mod_cast ha.1
      have ha2 : (a : ℚ) ≤ 0 := by exact_mod_cast ha.2
      have ht := ih (fun x hx => hb x (List.mem_cons_of_mem a hx))
      simp only [List.map_cons, List.sum_cons, List.length_cons]
      have hlen : ((t.length + 1 : ℕ) : ℚ) = (t.length : ℚ) + 1 := by
        push_cast
        ring
      rw [hlen]
      constructor
      · linarith [ht.1]
      · linarith [ht.2]

theorem meanQ_bounds (l : List Int) (hne : l ≠ [])
    (hb : ∀ x ∈ l, -60 ≤ x ∧ x ≤ 0) : -60 ≤ meanQ l ∧ meanQ l ≤ 0 := by
  have hlenpos : 0 < l.length := List.length_pos.mpr hne
  have hlen : (0 : ℚ) < (l.length : ℚ) := by exact_mod_cast hlenpos
  obtain ⟨hsum_ge, hsum_le⟩ := sumQ_bounds l hb
  constructor
  · rw [meanQ, le_div_iff₀ hlen]
    exact hsum_ge
  · rw [meanQ, div_le_iff₀ hlen]
    simpa using hsum_le

theorem flip_levels_mem (l : List Response) (x : Int) (hx : x ∈ flip_levels l) :
    ∃ r ∈ l, r.level = x := by
  induction l with
  | nil => simp [flip_levels] at hx
  | cons a t ih =>
      cases t with
      | nil => simp [flip_levels] at hx
      | cons b r =>
          rw [flip_levels] at hx
          rcases List.mem_append.mp hx with hx | hx
          · split at hx
            · exact ⟨b, by simp, (List.mem_singleton.mp hx).symm⟩
            · simp at hx
          · obtain ⟨rr, hrr, hrl⟩ := ih hx
            exact ⟨rr, List.mem_cons_of_mem a hrr, hrl⟩

theorem flip_levels_range (s : TestState) (hs : stateRange s) :
    ∀ x ∈ flip_levels (valid_responses s), -60 ≤ x ∧ x ≤ 0 := by
  intro x hx
  obtain ⟨r, hr, hrl⟩ := flip_levels_mem _ x hx
  rw [← hrl]
  exact hs.2.2 r (List.mem_of_mem_filter hr)

theorem drop_reversals_ne_nil (s : TestState) (h2 : 2 ≤ s.reversals.length) :
    s.reversals.drop (s.reversals.length - 2) ≠ [] := by
  apply List.ne_nil_of_length_pos
  rw [List.length_drop]
  omega

theorem complete_test_range (s : TestState) (hs : stateRange s) :
    -60 ≤ complete_test s ∧ complete_test s ≤ 0 := by
  rw [complete_test]
  split
  · next h2 =>
      apply meanQ_bounds _ (drop_reversals_ne_nil s h2)
      intro x hx
      exact hs.2.1 x (List.drop_subset _ _ hx)
  · split
    · norm_num
    · next hne =>
        apply meanQ_bounds _ _ (flip_levels_range s hs)
        intro hnil
        rw [hnil] at hne
        simp at hne

theorem complete_test_app_range (s : TestState) (hs : stateRange s) :
    -60 ≤ complete_test_app s ∧ complete_test_app s ≤ 0 := by
  rw [complete_test_app]
  split
  · next h2 =>
      apply meanQ_bounds _ (drop_reversals_ne_nil s h2)
      intro x hx
      exact hs.2.1 x (List.drop_subset _ _ hx)
  · split
    · next h2 hne =>
        rcases hrev : s.reversals with _ | ⟨a, t⟩
        · rw [hrev] at hne; simp at hne
        · cases t with
          | nil =>
              have ha := hs.2.1 a (by rw [hrev]; simp)
              simp only [List.getLastD]
              constructor
              · exact_mod_cast ha.1
              · exact_mod_cast ha.2
          | cons b t' =>
              rw [hrev] at h2
              simp at h2
    · split
      · norm_num
      · split
        · constructor
          · exact_mod_cast hs.1.1
          · exact_mod_cast hs.1.2
        · next h2 hrev hval hfl =>
            apply meanQ_bounds _ _ (flip_levels_range s hs)
            intro hnil
            rw [hnil] at hfl
            simp at hfl

/-- Claim C10: for every controller run, the threshold reported on
completion lies within `[-60, 0]`, in both `complete_test` variants: every
fallback branch (mean of the last two reversals, single last reversal,
mean of response-flip levels, current level, or the default 0) only
averages or returns clamped recorded levels. -/
theorem c10_threshold_in_range (l : List (Bool × Bool)) :
    (-60 ≤ complete_test (run initState l) ∧ complete_test (run initState l) ≤ 0)
    ∧ (-60 ≤ complete_test_app (run initState l)
        ∧ complete_test_app (run initState l) ≤ 0) :=
  ⟨complete_test_range _ (run_stateRange l initState initState_stateRange),
   complete_test_app_range _ (run_stateRange l initState initState_stateRange)⟩

/-! ## Claim C3: the asymmetry analyzer rules -/

theorem lookup_append_some (xs ys : List (Nat × ℚ)) (f : Nat) (v : ℚ)
    (h : lookupThreshold xs f = some v) :
    lookupThreshold (xs ++ ys) f = some v := by
  induction xs with
  | nil => simp [lookupThreshold] at h
  | cons p t ih =>
      obtain ⟨k, w⟩ := p
      rw [lookupThreshold] at h
      rw [List.cons_append, lookupThreshold]
      split at h
      · rw [if_pos (by assumption)]
        exact h
      · rw [if_neg (by assumption)]
        exact ih h

theorem lookup_append_none (xs ys : List (Nat × ℚ)) (f : Nat)
    (h : lookupThreshold xs f = none) :
    lookupThreshold (xs ++ ys) f = lookupThreshold ys f := by
  induction xs with
  | nil => rfl
  | cons p t ih =>
      obtain ⟨k, w⟩ := p
      rw [lookupThreshold] at h
      rw [List.cons_append, lookupThreshold]
      split at h
      · exact absurd h (by simp)
      · rw [if_neg (by assumption)]
        exact ih h

theorem diffStep_detected_mono (left right : List (Nat × ℚ))
    (st : AnalysisState) (f : Nat) (h : st.asymmetry_detected = true) :
    (diffStep left right st f).asymmetry_detected = true := by
  rw [diffStep]
  split
  · simp [h]
  · exact h

theorem diffStep_mem_mono (left right : List (Nat × ℚ)) (st : AnalysisState)
    (f g : Nat) (h : g ∈ st.problematic_frequencies) :
    g ∈ (diffStep left right st f).problematic_frequencies := by
  rw [diffStep]
  split
  · simp only []
    split
    · exact List.mem_append_left _ h
    · exact h
  · exact h

theorem diffStep_lookup_mono (left right : List (Nat × ℚ)) (st : AnalysisState)
    (f g : Nat) (v : ℚ) (h : lookupThreshold st.differences g = some v) :
    lookupThreshold (diffStep left right st f).differences g = some v := by
  rw [diffStep]
  split
  · exact lookup_append_some _ _ _ _ h
  · exact h

theorem foldl_diff_detected_mono (left right : List (Nat × ℚ)) (fs : List Nat)
    (st : AnalysisState) (h : st.asymmetry_detected = true) :
    (fs.foldl (diffStep left right) st).asymmetry_detected = true := by
  induction fs generalizing st with
  | nil => exact h
  | cons a t ih => exact ih _ (diffStep_detected_mono left right st a h)

theorem foldl_diff_mem_mono (left right : List (Nat × ℚ)) (fs : List Nat)
    (st : AnalysisState) (g : Nat) (h : g ∈ st.problematic_frequencies) :
    g ∈ (fs.foldl (diffStep left right) st).problematic_frequencies := by
  induction fs generalizing st with
  | nil => exact h
  | cons a t ih => exact ih _ (diffStep_mem_mono left right st a g h)

theorem foldl_diff_lookup_mono (left right : List (Nat × ℚ)) (fs : List Nat)
    (st : AnalysisState) (g : Nat) (v : ℚ)
    (h : lookupThreshold st.differences g = some v) :
    lookupThreshold (fs.foldl (diffStep left right) st).differences g = some v := by
  induction fs generalizing st with
  | nil => exact h
  | cons a t ih => exact ih _ (diffStep_lookup_mono left right st a g v h)

theorem diffStep_flags (left right : List (Nat × ℚ)) (st : AnalysisState)
    (f : Nat) (lv rv : ℚ) (hl : lookupThreshold left f = some lv)
    (hr : lookupThreshold right f = some rv) (h20 : 20 ≤ |lv - rv|) :
    (diffStep left right st f).asymmetry_detected = true
    ∧ f ∈ (diffStep left right st f).problematic_frequencies := by
  rw [diffStep, hl, hr]
  constructor
  · simp [h20]
  · simp only [if_pos h20]
    exact List.mem_append_right _ (List.mem_singleton_self f)

theorem diffStep_records (left right : List (Nat × ℚ)) (st : AnalysisState)
    (f : Nat) (lv rv : ℚ) (hl : lookupThreshold left f = some lv)
    (hr : lookupThreshold right f = some rv)
    (hst : lookupThreshold st.differences f = none
      ∨ lookupThreshold st.differences f = some |lv - rv|) :
    lookupThreshold (diffStep left right st f).differences f = some |lv - rv| := by
  rw [diffStep, hl, hr]
  rcases hst with hst | hst
  · simp only []
    rw [lookup_append_none _ _ _ hst, lookupThreshold, if_pos rfl]
  · exact lookup_append_some _ _ _ _ hst

theorem diffStep_differences_shape (left right : List (Nat × ℚ))
    (st : AnalysisState) (a : Nat) :
    (diffStep left right st a).differences = st.differences
    ∨ ∃ d, (diffStep left right st a).differences = st.differences ++ [(a, d)] := by
  rw [diffStep]
  split
  · right; exact ⟨_, rfl⟩
  · left; rfl

theorem pass1_flags (left right : List (Nat × ℚ)) (fs : List Nat)
    (st : AnalysisState) (f : Nat) (lv rv : ℚ) (hf : f ∈ fs)
    (hl : lookupThreshold left f = some lv)
    (hr : lookupThreshold right f = some rv) (h20 : 20 ≤ |lv - rv|) :
    (fs.foldl (diffStep left right) st).asymmetry_detected = true
    ∧ f ∈ (fs.foldl (diffStep left right) st).problematic_frequencies := by
  induction fs generalizing st with
  | nil => cases hf
  | cons a t ih =>
      rw [List.foldl_cons]
      rcases List.mem_cons.mp hf with rfl | hf'
      · obtain ⟨hd, hm⟩ := diffStep_flags left right st f lv rv hl hr h20
        exact ⟨foldl_diff_detected_mono left right t _ hd,
               foldl_diff_mem_mono left right t _ f hm⟩
      · exact ih _ hf'

theorem pass1_records (left right : List (Nat × ℚ)) (fs : List Nat)
    (st : AnalysisState) (f : Nat) (lv rv : ℚ) (hf : f ∈ fs)
    (hl : lookupThreshold left f = some lv)
    (hr : lookupThreshold right f = some rv)
    (hst : lookupThreshold st.differences f = none
      ∨ lookupThreshold st.differences f = some |lv - rv|) :
    lookupThreshold (fs.foldl (diffStep left right) st).differences f =
      some |lv - rv| := by
  induction fs generalizing st with
  | nil => cases hf
  | cons a t ih =>
      rw [List.foldl_cons]
      by_cases hfa : f = a
      · subst hfa
        exact foldl_diff_lookup_mono left right t _ f _
          (diffStep_records left right st f lv rv hl hr hst)
      · rcases List.mem_cons.mp hf with heq | hf'
        · exact absurd heq hfa
        · apply ih _ hf'
          rcases diffStep_differences_shape left right st a with hsh | ⟨d, hsh⟩
          · rw [hsh]; exact hst
          · rw [hsh]
            rcases hst with hst | hst
            · left
              rw [lookup_append_none _ _ _ hst, lookupThreshold,
                if_neg (by intro hk; exact hfa hk.symm)]
              rfl
            · right
              exact lookup_append_some _ _ _ _ hst

theorem mem_appendIfNew_self (l : List Nat) (f : Nat) : f ∈ appendIfNew l f := by
  rw [appendIfNew]
  split
  · assumption
  · exact List.mem_append_right _ (List.mem_singleton_self f)

theorem mem_appendIfNew_mono (l : List Nat) (f g : Nat) (h : g ∈ l) :
    g ∈ appendIfNew l f := by
  rw [appendIfNew]
  split
  · exact h
  · exact List.mem_append_left _ h

theorem adjacentStep_differences (st : AnalysisState) (p : Nat × Nat) :
    (adjacentStep st p).differences = st.differences := by
  rw [adjacentStep]
  split
  · split <;> rfl
  · rfl

theorem adjacentStep_detected_mono (st : AnalysisState) (p : Nat × Nat)
    (h : st.asymmetry_detected = true) :
    (adjacentStep st p).asymmetry_detected = true := by
  rw [adjacentStep]
  split
  · split
    · rfl
    · exact h
  · exact h

theorem adjacentStep_mem_mono (st : AnalysisState) (p : Nat × Nat) (g : Nat)
    (h : g ∈ st.problematic_frequencies) :
    g ∈ (adjacentStep st p).problematic_frequencies := by
  rw [adjacentStep]
  split
  · split
    · exact mem_appendIfNew_mono _ _ _ (mem_appendIfNew_mono _ _ _ h)
    · exact h
  · exact h

theorem foldl_adj_detected_mono (ps : List (Nat × Nat)) (st : AnalysisState)
    (h : st.asymmetry_detected = true) :
    (ps.foldl adjacentStep st).asymmetry_detected = true := by
  induction ps generalizing st with
  | nil => exact h
  | cons p t ih => exact ih _ (adjacentStep_detected_mono st p h)

theorem foldl_adj_mem_mono (ps : List (Nat × Nat)) (st : AnalysisState)
    (g : Nat) (h : g ∈ st.problematic_frequencies) :
    g ∈ (ps.foldl adjacentStep st).problematic_frequencies := by
  induction ps generalizing st with
  | nil => exact h
  | cons p t ih => exact ih _ (adjacentStep_mem_mono st p g h)

theorem adjacentStep_flags (st : AnalysisState) (p : Nat × Nat) (d1 d2 : ℚ)
    (h1 : lookupThreshold st.differences p.1 = some d1)
    (h2 : lookupThreshold st.differences p.2 = some d2)
    (h15 : 15 ≤ d1) (h15' : 15 ≤ d2) :
    (adjacentStep st p).asymmetry_detected = true
    ∧ p.1 ∈ (adjacentStep st p).problematic_frequencies
    ∧ p.2 ∈ (adjacentStep st p).problematic_frequencies := by
  rw [adjacentStep, h1, h2]
  simp only [if_pos (show (15 : ℚ) ≤ d1 ∧ (15 : ℚ) ≤ d2 from ⟨h15, h15'⟩)]
  exact ⟨trivial,
    mem_appendIfNew_mono _ _ _ (mem_appendIfNew_self _ _),
    mem_appendIfNew_self _ _⟩

theorem pass2_flags (ps : List (Nat × Nat)) (st : AnalysisState)
    (p : Nat × Nat) (d1 d2 : ℚ) (hp : p ∈ ps)
    (h1 : lookupThreshold st.differences p.1 = some d1)
    (h2 : lookupThreshold st.differences p.2 = some d2)
    (h15 : 15 ≤ d1) (h15' : 15 ≤ d2) :
    (ps.foldl adjacentStep st).asymmetry_detected = true
    ∧ p.1 ∈ (ps.foldl adjacentStep st).problematic_frequencies
    ∧ p.2 ∈ (ps.foldl adjacentStep st).problematic_frequencies := by
  induction ps generalizing st with
  | nil => cases hp
  | cons q t ih =>
      rw [List.foldl_cons]
      rcases List.mem_cons.mp hp with rfl | hp'
      · obtain ⟨hd, hm1, hm2⟩ := adjacentStep_flags st p d1 d2 h1 h2 h15 h15'
        exact ⟨foldl_adj_detected_mono t _ hd,
               foldl_adj_mem_mono t _ _ hm1,
               foldl_adj_mem_mono t _ _ hm2⟩
      · refine ih _ hp' ?_ ?_ <;> rw [adjacentStep_differences]
        · exact h1
        · exact h2

theorem adjacentPairs_mem (l : List Nat) (a b : Nat)
    (h : (a, b) ∈ adjacentPairs l) : a ∈ l ∧ b ∈ l := by
  induction l with
  | nil => simp [adjacentPairs] at h
  | cons x t ih =>
      cases t with
      | nil => simp [adjacentPairs] at h
      | cons y r =>
          rw [adjacentPairs] at h
          rcases List.mem_cons.mp h with heq | h'
          · obtain ⟨rfl, rfl⟩ := Prod.mk.injEq .. ▸ heq
            refine ⟨List.mem_cons_self _ _, List.mem_cons_of_mem _ (List.mem_cons_self _ _)⟩
          · obtain ⟨ha, hb⟩ := ih h'
            exact ⟨List.mem_cons_of_mem _ ha, List.mem_cons_of_mem _ hb⟩

/-- Claim C3: the analyzer flags asymmetry and marks the frequency as
problematic whenever a frequency present in both ears has an absolute
threshold difference of at least 20 dB, and it also flags asymmetry and
marks both frequencies whenever two adjacent frequencies of the
ascending-sorted test list both have differences of at least 15 dB. -/
theorem c3_analyzer_rules (left right : List (Nat × ℚ)) (fs : List Nat)
    (f f1 f2 : Nat) (lv rv l1 r1 l2 r2 : ℚ) :
    (f ∈ fs → lookupThreshold left f = some lv →
      lookupThreshold right f = some rv → 20 ≤ |lv - rv| →
      (analyze_asymmetry left right fs).asymmetry_detected = true
      ∧ f ∈ (analyze_asymmetry left right fs).problematic_frequencies)
    ∧ ((f1, f2) ∈ adjacentPairs (fs.insertionSort (· ≤ ·)) →
      lookupThreshold left f1 = some l1 → lookupThreshold right f1 = some r1 →
      lookupThreshold left f2 = some l2 → lookupThreshold right f2 = some r2 →
      15 ≤ |l1 - r1| → 15 ≤ |l2 - r2| →
      (analyze_asymmetry left right fs).asymmetry_detected = true
      ∧ f1 ∈ (analyze_asymmetry left right fs).problematic_frequencies
      ∧ f2 ∈ (analyze_asymmetry left right fs).problematic_frequencies) := by
  constructor
  · intro hf hl hr h20
    rw [analyze_asymmetry]
    obtain ⟨hd, hm⟩ := pass1_flags left right fs analyzeInit f lv rv hf hl hr h20
    exact ⟨foldl_adj_detected_mono _ _ hd, foldl_adj_mem_mono _ _ _ hm⟩
  · intro hpair hl1 hr1 hl2 hr2 h15 h15'
    rw [analyze_asymmetry]
    have hmem := adjacentPairs_mem _ f1 f2 hpair
    have hperm := List.perm_insertionSort (fun a b : Nat => a ≤ b) fs
    have hf1 : f1 ∈ fs := hperm.mem_iff.mp hmem.1
    have hf2 : f2 ∈ fs := hperm.mem_iff.mp hmem.2
    have hrec1 := pass1_records left right fs analyzeInit f1 l1 r1 hf1 hl1 hr1
      (Or.inl rfl)
    have hrec2 := pass1_records left right fs analyzeInit f2 l2 r2 hf2 hl2 hr2
      (Or.inl rfl)
    exact pass2_flags _ _ (f1, f2) _ _ hpair hrec1 hrec2 h15 h15'

/-- Witness for C3: the spec's Scenario B input (left −30 dB, right −5 dB
at 1000 Hz) for the per-frequency rule, and its Scenario D input (16 dB
differences at 1000 Hz and 2000 Hz) for the adjacent-frequency rule. -/
theorem c3_analyzer_rules_witness :
    ((1000 ∈ [1000, 2000])
      ∧ (analyze_asymmetry [(1000, -30)] [(1000, -5)] [1000, 2000]).asymmetry_detected = true
      ∧ 1000 ∈ (analyze_asymmetry [(1000, -30)] [(1000, -5)]
          [1000, 2000]).problematic_frequencies)
    ∧ (((1000, 2000) ∈ adjacentPairs (([1000, 2000] : List Nat).insertionSort (· ≤ ·)))
      ∧ (analyze_asymmetry [(1000, -16), (2000, -16)] [(1000, 0), (2000, 0)]
          [1000, 2000]).asymmetry_detected = true
      ∧ 1000 ∈ (analyze_asymmetry [(1000, -16), (2000, -16)] [(1000, 0), (2000, 0)]
          [1000, 2000]).problematic_frequencies
      ∧ 2000 ∈ (analyze_asymmetry [(1000, -16), (2000, -16)] [(1000, 0), (2000, 0)]
          [1000, 2000]).problematic_frequencies) := by
  constructor
  · refine ⟨by decide, ?_⟩
    exact (c3_analyzer_rules [(1000, -30)] [(1000, -5)] [1000, 2000]
      1000 1000 2000 (-30) (-5) 0 0 0 0).1 (by decide) rfl rfl (by norm_num)
  · refine ⟨by decide, ?_⟩
    exact (c3_analyzer_rules [(1000, -16), (2000, -16)] [(1000, 0), (2000, 0)]
      [1000, 2000] 0 1000 2000 0 0 (-16) 0 (-16) 0).2 (by decide) rfl rfl rfl rfl
      (by norm_num) (by norm_num)

/-! ## Claim C8: the dB-to-amplitude law of the synthesizer -/

/-- Claim C8: the synthesized stimulus scales the sine by
`referenceAmplitude * 10^(levelDb/20)` — every sample is bounded by that
amplitude in magnitude, the continuous-time sine attains it — and the
amplitude is strictly monotone in `levelDb`, so the output strictly
shrinks as the level drops. -/
theorem c8_amplitude_gain (ref l l' freq d : ℝ) (href : 0 < ref) (hl : l < l')
    (hf : 0 < freq) :
    amplitude ref l = ref * (10 : ℝ) ^ (l / 20)
    ∧ (∀ n i : Nat, |tone_sample ref l freq d n i| ≤ amplitude ref l)
    ∧ (∃ t : ℝ, cont_tone ref l freq t = amplitude ref l)
    ∧ amplitude ref l < amplitude ref l' := by
  have hpow : (0 : ℝ) < (10 : ℝ) ^ (l / 20) :=
    Real.rpow_pos_of_pos (by norm_num) _
  have hamp : 0 < amplitude ref l := mul_pos href hpow
  refine ⟨rfl, ?_, ?_, ?_⟩
  · intro n i
    rw [tone_sample, abs_mul, abs_of_pos hamp]
    calc amplitude ref l * |Real.sin (2 * Real.pi * freq * (d * i / ((n : ℝ) - 1)))|
        ≤ amplitude ref l * 1 :=
          mul_le_mul_of_nonneg_left
            (abs_le.mpr ⟨Real.neg_one_le_sin _, Real.sin_le_one _⟩) hamp.le
      _ = amplitude ref l := mul_one _
  · refine ⟨1 / (4 * freq), ?_⟩
    rw [cont_tone]
    have harg : 2 * Real.pi * freq * (1 / (4 * freq)) = Real.pi / 2 := by
      field_simp
      ring
    rw [harg, Real.sin_pi_div_two, mul_one]
  · rw [amplitude, amplitude]
    exact mul_lt_mul_of_pos_left
      ((Real.rpow_lt_rpow_left_iff (by norm_num)).mpr (by linarith)) href

/-- Witness for C8 at reference amplitude 1, levels 0 and 1, frequency 1. -/
theorem c8_amplitude_gain_witness :
    (0 : ℝ) < 1
    ∧ amplitude 1 0 = 1 * (10 : ℝ) ^ ((0 : ℝ) / 20)
    ∧ |tone_sample 1 0 1 1 2 0| ≤ amplitude 1 0
    ∧ (∃ t : ℝ, cont_tone 1 0 1 t = amplitude 1 0)
    ∧ amplitude 1 0 < amplitude 1 1 :=
  ⟨one_pos,
   (c8_amplitude_gain 1 0 1 1 1 one_pos one_pos one_pos).1,
   (c8_amplitude_gain 1 0 1 1 1 one_pos one_pos one_pos).2.1 2 0,
   (c8_amplitude_gain 1 0 1 1 1 one_pos one_pos one_pos).2.2.1,
   (c8_amplitude_gain 1 0 1 1 1 one_pos one_pos one_pos).2.2.2⟩

/-! ## Claim C9: the fade envelope -/

/-- Claim C9 counterexample: for the test stimulus (sample rate 44100 Hz,
duration 0.3 s) the code's fade length is `int(0.05 * sample_rate) = 2205`
samples — 0.05 s — while 5% of the duration is 661 samples (662 when
rounding up); the fades do not cover 5% of the duration. -/
theorem c9_fade_counterexample :
    fade_samples sample_rate = 2205
    ∧ num_samples sample_rate 3 10 = 13230
    ∧ spec_fade_samples sample_rate 3 10 = 661
    ∧ fade_samples sample_rate ≠ spec_fade_samples sample_rate 3 10
    ∧ fade_samples sample_rate ≠ spec_fade_samples sample_rate 3 10 + 1 := by
  refine ⟨rfl, rfl, rfl, ?_, ?_⟩ <;> decide

/-- Claim C9 as amended: the envelope is applied multiplicatively to the
raw sine before channel routing, with a linear fade-in over the first
`int(0.05 * sampleRate)` samples (50 ms — one sixth of the 0.3 s stimulus,
not 5% of it) and a linear fade-out over the last `int(0.05 * sampleRate)`
samples. -/
theorem c9_fade_amended (ref l freq d : ℝ) :
    fade_samples sample_rate = 2205
    ∧ num_samples sample_rate 3 10 = 6 * fade_samples sample_rate
    ∧ (∀ i : Nat, i < 2205 → envelope 13230 2205 i = (i : ℚ) / 2204)
    ∧ (∀ i : Nat, 2205 ≤ i → i < 11025 → envelope 13230 2205 i = 1)
    ∧ (∀ i : Nat, 11025 ≤ i → i < 13230 →
        envelope 13230 2205 i = ((13229 - i : Nat) : ℚ) / 2204)
    ∧ (∀ i : Nat, stereo_sample ref l freq d 13230 2205 i Ear.left =
        (tone_sample ref l freq d 13230 i * ((envelope 13230 2205 i : ℚ) : ℝ), 0))
    ∧ (∀ i : Nat, stereo_sample ref l freq d 13230 2205 i Ear.right =
        (0, tone_sample ref l freq d 13230 i * ((envelope 13230 2205 i : ℚ) : ℝ))) := by
  refine ⟨rfl, rfl, ?_, ?_, ?_, fun i => rfl, fun i => rfl⟩
  · intro i hi
    rw [envelope, if_neg (by omega), if_pos hi]
    norm_num
  · intro i h1 h2
    rw [envelope, if_neg (by omega), if_neg (by omega)]
  · intro i h1 h2
    have hnum : (13230 - 1 - i : Nat) = (13229 - i : Nat) := by omega
    rw [envelope, if_pos (by omega), hnum]
    norm_num

/-- Witness for C9's amended theorem at the envelope's corner samples. -/
theorem c9_fade_amended_witness :
    envelope 13230 2205 0 = (0 : ℚ) / 2204
    ∧ envelope 13230 2205 5000 = 1
    ∧ envelope 13230 2205 13229 = ((13229 - 13229 : Nat) : ℚ) / 2204 :=
  ⟨(c9_fade_amended 0 0 0 0).2.2.1 0 (by decide),
   (c9_fade_amended 0 0 0 0).2.2.2.1 5000 (by decide) (by decide),
   (c9_fade_amended 0 0 0 0).2.2.2.2.1 13229 (by decide) (by decide)⟩

end HearingScreening
